import Mathlib

/-!
# Verification of the Ethereum Bridge Pool relayer core

A shallow embedding of `src/shared/src/ledger/eth_bridge/bridge_pool.rs`
(the `recommendations` module, the relay driver's nonce gate, and the
proof constructor's stdin prompt loop), together with proofs of the
specification's claims about it.

Modelling conventions:
* `Uint` (unsigned 256-bit big integers) are modelled as `Nat`; the
  additions performed by the optimizer never wrap in the source either
  (`primitive-types` arithmetic panics on overflow rather than wrapping).
* `I256` (signed 256-bit) is modelled as `Int` together with an explicit
  range bound `-2^255 ≤ x < 2^255`; the fallible conversion
  `I256::try_from : Uint -> Result<I256>` is `I256.tryFrom : Nat → Option Int`,
  and subtraction is two's-complement wrap-around `I256.sub`.
* The `Halt<T>` control-flow type (`proceed`/`halt`) is modelled as
  `Option` (`some`/`none`).
* `f64` conversion rates are modelled as exact rationals `ℚ`; the source
  computes `(10^9 as f64 / conversion_rate).floor() as u64`, an IEEE-754
  division followed by a saturating cast, which we render as
  `min ⌊10^9 / rate⌋ (2^64 - 1)`.
* Addresses, `EthAddrBook`s and the abstract transfer payload are `Nat`.
* `FractionalVotingPower` (exact numerator/denominator pairs, from
  `namada_core`, not under `src/`) is modelled from the spec as `ℚ`.
-/

/-- Source-chain addresses (opaque identity). -/
abbrev Address := Nat

/-- Gas fee attached to a pending transfer: the fee token, the fee amount
(unsigned 256-bit, modelled as `Nat`) and the payer. -/
structure GasFee where
  token : Address
  amount : Nat
  payer : Address
deriving DecidableEq, Repr

/-- A pending transfer in the bridge pool.  The `transfer` payload
(kind, asset, recipient, sender, amount) only matters for identity in the
code we verify, so it is abstracted to a `Nat`. -/
structure PendingTransfer where
  transfer : Nat
  gas_fee : GasFee
deriving DecidableEq, Repr

/-- An entry of the user-supplied conversion table: a display alias and the
gas-token-to-NAM conversion rate (an `f64` in the source, modelled as an
exact rational). -/
structure BpConversionTableEntry where
  tokAlias : String
  conversion_rate : Rat
deriving DecidableEq, Repr

/-- Source constant `unsigned_transfer_fee() -> Uint`, i.e. 37 500 gwei. -/
def unsigned_transfer_fee : Nat := 37500

/-- Source constant `transfer_fee() -> I256`, the signed view of the
transfer fee. -/
def transfer_fee : Int := 37500

/-- Source constant `signature_fee() -> Uint`, i.e. 24 500 gwei. -/
def signature_fee : Nat := 24500

/-- Source constant `valset_fee() -> Uint`, i.e. 2 000 gwei. -/
def valset_fee : Nat := 2000

/-- Two's-complement wrap-around into the signed 256-bit range. -/
def wrap256 (x : Int) : Int := (x + 2 ^ 255) % 2 ^ 256 - 2 ^ 255

/-- Conversion `I256::try_from : Uint -> Result<I256>`: fails exactly when
the unsigned value exceeds the signed 256-bit range. -/
def I256.tryFrom (n : Nat) : Option Int :=
  if n < 2 ^ 255 then some (n : Int) else none

/-- Signed 256-bit subtraction (two's-complement wrap-around). -/
def I256.sub (a b : Int) : Int := wrap256 (a - b)

/-- The source expression `(10u64.pow(9) as f64 / conversion_rate).floor()
as u64`, with the `f64` modelled as an exact rational and the `as u64`
cast saturating. -/
def gweiPerGasToken (rate : Rat) : Nat :=
  min (⌊(1000000000 : Rat) / rate⌋.toNat) (2 ^ 64 - 1)

/-- Transfer to Ethereum that is eligible to be recommended for a relay
operation (`struct EligibleRecommendation`). -/
structure EligibleRecommendation where
  pending_transfer : PendingTransfer
  transfer_hash : String
  cost : Int
deriving DecidableEq, Repr

/-- The source's `struct AlgorithState` [sic]: the optimizer's two boolean
flags. -/
structure AlgorithState where
  profitable : Bool
  feasible_region : Bool
deriving DecidableEq, Repr

/-- The source's `enum AlgorithmMode`, with variants `Greedy` and
`Generous`. -/
inductive AlgorithmMode
  | Greedy
  | Generous
deriving DecidableEq, Repr

/-- The mutable locals of `generate`'s sweep loop, gathered in a record:
`state`, `total_gas`, `total_cost`, `total_fees`, `recommendation`. -/
structure GenState where
  state : AlgorithState
  total_gas : Nat
  total_cost : Int
  total_fees : List (String × Nat)
  recommendation : List String
deriving DecidableEq, Repr

/-- Add `v` to the entry of `k` in an association list, inserting
`(k, v)` when absent (`total_fees.entry(key).or_insert(ZERO); *fees += amount`). -/
def insertAdd : List (String × Nat) → String → Nat → List (String × Nat)
  | [], k, v => [(k, v)]
  | (k0, v0) :: rest, k, v =>
    if k0 = k then (k0, v0 + v) :: rest else (k0, v0) :: insertAdd rest k v

/-- The source's `fn update_total_fees`: merge the transfer's gas fee into `total_fees`,
keyed by the conversion-table alias when known, else the token's string form. -/
def update_total_fees (total_fees : List (String × Nat)) (transfer : PendingTransfer)
    (conversion_table : List (Address × BpConversionTableEntry)) : List (String × Nat) :=
  let key :=
    match List.lookup transfer.gas_fee.token conversion_table with
    | some entry => entry.tokAlias
    | none => toString transfer.gas_fee.token
  insertAdd total_fees key transfer.gas_fee.amount

/-- Result of one iteration of `generate`'s sweep: either continue with the
updated state, or `break` out of the loop carrying the state as the loop
left it. -/
inductive StepResult
  | cont (s : GenState)
  | brk (s : GenState)
deriving DecidableEq, Repr

/-- One iteration of the sweep loop in `fn generate`, acting on one
`EligibleRecommendation` and the current `GenState`. -/
def generateStep (conversion_table : List (Address × BpConversionTableEntry))
    (max_gas : Nat) (max_cost : Int) (mode : AlgorithmMode)
    (er : EligibleRecommendation) (s : GenState) : StepResult :=
  let next_total_gas := s.total_gas + unsigned_transfer_fee
  let next_total_cost := s.total_cost + er.cost
  if er.cost < 0 then
    if next_total_gas ≤ max_gas ∧ next_total_cost ≤ max_cost then
      .cont { state := { s.state with feasible_region := true },
              total_gas := next_total_gas,
              total_cost := next_total_cost,
              total_fees := update_total_fees s.total_fees er.pending_transfer conversion_table,
              recommendation := s.recommendation ++ [er.transfer_hash] }
    else if s.state.feasible_region then
      -- once we leave the feasible region, we will never re-enter it
      .brk s
    else
      .cont { s with
              total_gas := next_total_gas,
              total_cost := next_total_cost,
              total_fees := update_total_fees s.total_fees er.pending_transfer conversion_table,
              recommendation := s.recommendation ++ [er.transfer_hash] }
  else if mode = AlgorithmMode.Generous then
    -- `state.profitable = false` happens before the feasibility test
    let s1 : GenState := { s with state := { s.state with profitable := false } }
    let is_feasible := next_total_gas ≤ max_gas ∧ next_total_cost ≤ max_cost
    if s1.state.feasible_region ∧ ¬is_feasible then
      .brk s1
    else
      .cont { s1 with
              total_gas := next_total_gas,
              total_cost := next_total_cost,
              total_fees := update_total_fees s1.total_fees er.pending_transfer conversion_table,
              recommendation := s1.recommendation ++ [er.transfer_hash] }
  else
    .brk s

/-- The sweep loop of `fn generate` over the candidate list. -/
def generateLoop (conversion_table : List (Address × BpConversionTableEntry))
    (max_gas : Nat) (max_cost : Int) (mode : AlgorithmMode) :
    List EligibleRecommendation → GenState → GenState
  | [], s => s
  | er :: rest, s =>
    match generateStep conversion_table max_gas max_cost mode er s with
    | .cont s2 => generateLoop conversion_table max_gas max_cost mode rest s2
    | .brk s2 => s2

/-- Mode selection at the top of `fn generate`:
`Greedy` when `max_cost ≤ I256::zero()`, else `Generous`. -/
def modeOf (max_cost : Int) : AlgorithmMode :=
  if max_cost ≤ 0 then .Greedy else .Generous

/-- The initial `GenState` of `generate`'s sweep: `profitable = true`,
`feasible_region = false`, both running totals at `validator_gas`, empty
fee map and empty recommendation. -/
def initGenState (validator_gas : Nat) : GenState :=
  { state := { profitable := true, feasible_region := false },
    total_gas := validator_gas,
    total_cost := (validator_gas : Int),
    total_fees := [],
    recommendation := [] }

/-- The source's `fn generate(contents, conversion_table, validator_gas, max_gas, max_cost)
-> Halt<Option<Vec<String>>>`.  The outer `Option` is the `Halt` channel
(`none` = halt, triggered by the `I256::try_from(validator_gas)` failure);
the inner `Option` is the recommendation, `none` when no batch satisfying
the input parameters exists. -/
def generate (contents : List EligibleRecommendation)
    (conversion_table : List (Address × BpConversionTableEntry))
    (validator_gas : Nat) (max_gas : Nat) (max_cost : Int) :
    Option (Option (List String)) :=
  match I256.tryFrom validator_gas with
  | none => none
  | some validator_gas_cost =>
    let final := generateLoop conversion_table max_gas max_cost (modeOf max_cost) contents
      { initGenState validator_gas with total_cost := validator_gas_cost }
    some (if final.state.feasible_region && !final.recommendation.isEmpty then
            some final.recommendation
          else
            none)

/-- The body of the `filter_map` in `recommend_batch`'s eligibility filter,
applied to one `(hash, pending)` pair of the signed-pool snapshot.
The outer `Option` is the `filter_map` skip channel; the `Option Int`
inside is the `Halt` channel of the `I256` cost conversion. -/
def eligItem (in_progress : List PendingTransfer)
    (conversion_table : List (Address × BpConversionTableEntry))
    (item : String × PendingTransfer) :
    Option (String × Option Int × PendingTransfer) :=
  let pending := item.2
  if pending ∈ in_progress then
    none
  else
    match List.lookup pending.gas_fee.token conversion_table with
    | none => none
    | some entry =>
      if entry.conversion_rate ≤ 0 then
        none
      else
        some (item.1,
          (I256.tryFrom (pending.gas_fee.amount * gweiPerGasToken entry.conversion_rate)).map
            (fun cost => I256.sub transfer_fee cost),
          pending)

/-- The `try_fold` in `recommend_batch`: push each surviving item into the
accumulator in order, halting the whole run at the first item whose cost
conversion halted. -/
def collectElig : List (String × Option Int × PendingTransfer) →
    Option (List EligibleRecommendation)
  | [] => some []
  | (hash, costOpt, transf) :: rest =>
    match costOpt with
    | none => none
    | some c =>
      (collectElig rest).map
        (fun accum =>
          { pending_transfer := transf, transfer_hash := hash, cost := c } :: accum)

/-- The eligibility filter of `recommend_batch`: `filter_map` over the
signed-pool snapshot followed by the halting `try_fold`. -/
def eligibilityFilter (in_progress : List PendingTransfer)
    (conversion_table : List (Address × BpConversionTableEntry))
    (pool : List (String × PendingTransfer)) :
    Option (List EligibleRecommendation) :=
  collectElig (pool.filterMap (eligItem in_progress conversion_table))

/-- Hot/cold Ethereum address book of a validator (opaque identity). -/
abbrev EthAddrBook := Nat

/-- The recursion underlying `fn signature_checks`: walk the sorted voting
powers with the mutable fractional accumulator `power`, skipping
non-signers (`filter_map`) and counting signers while the accumulator is
still `≤ 2/3` (`take_while` + `count`). -/
def sigChecksGo (sigs : List EthAddrBook) (total_power : Nat) :
    List (EthAddrBook × Nat) → Rat → Nat
  | [], _ => 0
  | (a, p) :: rest, acc =>
    if a ∈ sigs then
      if acc ≤ 2 / 3 then
        sigChecksGo sigs total_power rest (acc + (p : Rat) / (total_power : Rat)) + 1
      else
        0
    else
      sigChecksGo sigs total_power rest acc

/-- The source's `fn signature_checks(voting_powers, sigs) -> Uint`: the size of the
first subset of the signers constituting a 2/3 majority.  The input list
is `voting_powers.get_sorted()`, i.e. already in decreasing-power order
(`get_sorted` lives in `namada_core`, outside this repository's sources). -/
def signature_checks (voting_powers_sorted : List (EthAddrBook × Nat))
    (sigs : List EthAddrBook) : Nat :=
  let total_power := (voting_powers_sorted.map Prod.snd).sum
  sigChecksGo sigs total_power voting_powers_sorted 0

/-- Modelled from the spec: the count described by the claim — walk the
voting powers in order, drop non-signers, and count the longest prefix of
signers each of whose preceding accumulated fractional power is `≤ 2/3`
(stopping once the accumulator exceeds `2/3`). -/
def signature_checks_spec (voting_powers_sorted : List (EthAddrBook × Nat))
    (sigs : List EthAddrBook) : Nat :=
  let total_power := (voting_powers_sorted.map Prod.snd).sum
  let shares : List Rat :=
    (voting_powers_sorted.filter (fun e => decide (e.1 ∈ sigs))).map
      (fun e => (e.2 : Rat) / (total_power : Rat))
  (((shares.scanl (· + ·) 0).dropLast).takeWhile (fun q => decide (q ≤ 2 / 3))).length

/-- Abstract form of the counting in `signature_checks` /
`signature_checks_spec`: given the fractional shares of the signers in
walking order and a starting accumulator, count signers while the
accumulator stays `≤ 2/3`, stopping at the first signer reached with the
accumulator above `2/3`. -/
def quorumCount : List Rat → Rat → Nat
  | [], _ => 0
  | s :: rest, acc => if acc ≤ 2 / 3 then quorumCount rest (acc + s) + 1 else 0

/-- Outcome of the nonce comparison in `relay_bridge_pool_proof`:
either the Ethereum transaction is sent, or the run halts with one of the
two printed diagnostics. -/
inductive RelayOutcome
  | submitted
  | haltStaleProof
  | haltNonceAhead
deriving DecidableEq, Repr

/-- The `match bp_proof.batch_nonce.cmp(&contract_nonce)` gate of
`relay_bridge_pool_proof`: `Equal` falls through to submission, `Less`
and `Greater` halt with a diagnostic before the submission step. -/
def relayNonceCheck (batch_nonce contract_nonce : Nat) : RelayOutcome :=
  match compare batch_nonce contract_nonce with
  | .eq => .submitted
  | .lt => .haltStaleProof
  | .gt => .haltNonceAhead

/-- Outcome of the stdin prompt loop in `construct_bridge_pool_proof`. -/
inductive PromptOutcome
  | proceed
  | haltClean
  | haltError
deriving DecidableEq, Repr

/-- Remove leading and trailing whitespace characters from a character
list (the model of Rust's `str::trim`, with whitespace approximated by
space, tab, carriage return and line feed). -/
def trimChars (cs : List Char) : List Char :=
  ((cs.dropWhile Char.isWhitespace).reverse.dropWhile Char.isWhitespace).reverse

/-- The source's `buffer.trim()` on a whole input line. -/
def strTrim (s : String) : String := String.mk (trimChars s.data)

/-- The re-prompt message printed on an unrecognized input line. -/
def rePromptMsg : String := "Expected \x27y\x27 or \x27n\x27. Please try again: "

/-- The stdin prompt loop of `construct_bridge_pool_proof`, over a trace of
reads (`none` = a read error, `some line` = a line read from stdin).
Returns the outcome together with the re-prompt messages printed along the
way; `none` when the trace is exhausted with the loop still reading. -/
def promptLoop : List (Option String) → Option (PromptOutcome × List String)
  | [] => none
  | none :: _ => some (.haltError, [])
  | some line :: rest =>
    if strTrim line = "y" then some (.proceed, [])
    else if strTrim line = "n" then some (.haltClean, [])
    else (promptLoop rest).map (fun r => (r.1, rePromptMsg :: r.2))

/-! ## Helper lemmas about the optimizer sweep -/

lemma wrap256_eq_self {x : Int} (h1 : -(2 ^ 255) ≤ x) (h2 : x < 2 ^ 255) :
    wrap256 x = x := by
  have h3 : (0 : Int) ≤ x + 2 ^ 255 := by linarith
  have h4 : x + 2 ^ 255 < 2 ^ 256 := by
    have h5 : (2 : Int) ^ 256 = 2 ^ 255 + 2 ^ 255 := by norm_num
    linarith
  unfold wrap256
  rw [Int.emod_eq_of_lt h3 h4]
  ring

lemma generateStep_cont_feasible {ct : List (Address × BpConversionTableEntry)}
    {mg : Nat} {mc : Int} {mode : AlgorithmMode} {er : EligibleRecommendation}
    {s s2 : GenState} (h : generateStep ct mg mc mode er s = .cont s2)
    (hf : s.state.feasible_region = true) : s2.state.feasible_region = true := by
  simp only [generateStep] at h
  split_ifs at h <;> cases h <;> simp [hf]

lemma generateStep_cont_rec {ct : List (Address × BpConversionTableEntry)}
    {mg : Nat} {mc : Int} {mode : AlgorithmMode} {er : EligibleRecommendation}
    {s s2 : GenState} (h : generateStep ct mg mc mode er s = .cont s2) :
    s2.recommendation = s.recommendation ++ [er.transfer_hash] := by
  simp only [generateStep] at h
  split_ifs at h <;> cases h <;> simp

lemma generateStep_brk_state {ct : List (Address × BpConversionTableEntry)}
    {mg : Nat} {mc : Int} {mode : AlgorithmMode} {er : EligibleRecommendation}
    {s s2 : GenState} (h : generateStep ct mg mc mode er s = .brk s2) :
    s2.recommendation = s.recommendation
    ∧ s2.state.feasible_region = s.state.feasible_region
    ∧ s2.total_gas = s.total_gas ∧ s2.total_cost = s.total_cost := by
  simp only [generateStep] at h
  split_ifs at h <;> cases h <;> simp

lemma generateLoop_feasible_mono (ct : List (Address × BpConversionTableEntry))
    (mg : Nat) (mc : Int) (mode : AlgorithmMode) :
    ∀ (contents : List EligibleRecommendation) (s : GenState),
      s.state.feasible_region = true →
      (generateLoop ct mg mc mode contents s).state.feasible_region = true := by
  intro contents
  induction contents with
  | nil => intro s hf; simpa [generateLoop] using hf
  | cons er rest ih =>
    intro s hf
    unfold generateLoop
    cases hstep : generateStep ct mg mc mode er s with
    | cont s2 => exact ih s2 (generateStep_cont_feasible hstep hf)
    | brk s2 => simpa [(generateStep_brk_state hstep).2.1] using hf

lemma generateLoop_rec_sublist (ct : List (Address × BpConversionTableEntry))
    (mg : Nat) (mc : Int) (mode : AlgorithmMode) :
    ∀ (contents : List EligibleRecommendation) (s : GenState),
      ∃ t, (generateLoop ct mg mc mode contents s).recommendation = s.recommendation ++ t
        ∧ List.Sublist t (contents.map (fun er => er.transfer_hash)) := by
  intro contents
  induction contents with
  | nil => intro s; exact ⟨[], by simp [generateLoop]⟩
  | cons er rest ih =>
    intro s
    unfold generateLoop
    cases hstep : generateStep ct mg mc mode er s with
    | cont s2 =>
      obtain ⟨t, ht, hsub⟩ := ih s2
      refine ⟨er.transfer_hash :: t, ?_, ?_⟩
      · rw [ht, generateStep_cont_rec hstep]; simp
      · simpa using List.Sublist.cons₂ er.transfer_hash hsub
    | brk s2 =>
      refine ⟨[], by simp [(generateStep_brk_state hstep).1], by simp⟩

lemma generate_eq_of_lt {vg : Nat} (contents : List EligibleRecommendation)
    (ct : List (Address × BpConversionTableEntry)) (mg : Nat) (mc : Int)
    (h : vg < 2 ^ 255) :
    generate contents ct vg mg mc =
      some (if (generateLoop ct mg mc (modeOf mc) contents (initGenState vg)).state.feasible_region
               && !(generateLoop ct mg mc (modeOf mc) contents (initGenState vg)).recommendation.isEmpty
            then some (generateLoop ct mg mc (modeOf mc) contents (initGenState vg)).recommendation
            else none) := by
  have htf : I256.tryFrom vg = some (vg : Int) := by
    unfold I256.tryFrom
    rw [if_pos h]
  simp only [generate, htf]
  rfl

lemma generate_none_of_ge {vg : Nat} (contents : List EligibleRecommendation)
    (ct : List (Address × BpConversionTableEntry)) (mg : Nat) (mc : Int)
    (h : ¬vg < 2 ^ 255) :
    generate contents ct vg mg mc = none := by
  have htf : I256.tryFrom vg = none := by
    unfold I256.tryFrom
    rw [if_neg h]
  simp [generate, htf]

/-! ## Claim theorems: the batch optimizer -/

/-- C1: In `generate`, a profitable candidate (`cost < 0`) reached before
any break has its hash appended to the recommendation even when its
inclusion violates the gas or cost ceiling while `feasible_region` is
still false; nevertheless the emission guard returns a non-`None` batch
only when `feasible_region` is true and the recommendation is non-empty,
so a sweep that never enters the feasible region returns no batch even
with a non-empty internal recommendation list. -/
theorem generate_profitable_append_and_emission_guard
    (ct : List (Address × BpConversionTableEntry)) (mg : Nat) (mc : Int) :
    (∀ (mode : AlgorithmMode) (er : EligibleRecommendation) (s : GenState),
      er.cost < 0 → s.state.feasible_region = false →
      ¬(s.total_gas + unsigned_transfer_fee ≤ mg ∧ s.total_cost + er.cost ≤ mc) →
      generateStep ct mg mc mode er s =
        .cont { s with
                total_gas := s.total_gas + unsigned_transfer_fee,
                total_cost := s.total_cost + er.cost,
                total_fees := update_total_fees s.total_fees er.pending_transfer ct,
                recommendation := s.recommendation ++ [er.transfer_hash] })
    ∧ (∀ (contents : List EligibleRecommendation) (vg : Nat) (r : List String),
        generate contents ct vg mg mc = some (some r) →
        (generateLoop ct mg mc (modeOf mc) contents (initGenState vg)).state.feasible_region = true
        ∧ r ≠ [])
    ∧ (∀ (contents : List EligibleRecommendation) (vg : Nat),
        vg < 2 ^ 255 →
        (generateLoop ct mg mc (modeOf mc) contents (initGenState vg)).state.feasible_region = false →
        generate contents ct vg mg mc = some none) := by
  refine ⟨?_, ?_, ?_⟩
  · intro mode er s hc hf hnfit
    simp only [generateStep]
    rw [if_pos hc, if_neg hnfit, if_neg (by simp [hf])]
  · intro contents vg r hgen
    by_cases hlt : vg < 2 ^ 255
    · rw [generate_eq_of_lt contents ct mg mc hlt] at hgen
      cases hfe : (generateLoop ct mg mc (modeOf mc) contents (initGenState vg)).state.feasible_region with
      | false => rw [hfe] at hgen; simp at hgen
      | true =>
        rw [hfe] at hgen
        cases hemp : (generateLoop ct mg mc (modeOf mc) contents (initGenState vg)).recommendation.isEmpty with
        | true => rw [hemp] at hgen; simp at hgen
        | false =>
          rw [hemp] at hgen
          simp only [Bool.true_and, Bool.not_false, if_pos] at hgen
          refine ⟨rfl, ?_⟩
          obtain rfl : (generateLoop ct mg mc (modeOf mc) contents (initGenState vg)).recommendation = r := by
            simpa using hgen
          simpa [List.isEmpty_iff] using hemp
    · rw [generate_none_of_ge contents ct mg mc hlt] at hgen; cases hgen
  · intro contents vg hlt hfe
    rw [generate_eq_of_lt contents ct mg mc hlt]
    simp [hfe]

/-- Closed instance of C1: a profitable candidate whose inclusion violates
the gas ceiling, with `feasible_region` still false, is appended anyway. -/
theorem generate_profitable_append_and_emission_guard_witness :
    generateStep [] 0 0 AlgorithmMode.Greedy
      { pending_transfer := { transfer := 0, gas_fee := { token := 0, amount := 0, payer := 0 } },
        transfer_hash := "a", cost := -1 } (initGenState 0) =
      StepResult.cont
        { state := { profitable := true, feasible_region := false },
          total_gas := 37500, total_cost := -1, total_fees := [("0", 0)],
          recommendation := ["a"] } :=
  (generate_profitable_append_and_emission_guard [] 0 0).1 AlgorithmMode.Greedy
    { pending_transfer := { transfer := 0, gas_fee := { token := 0, amount := 0, payer := 0 } },
      transfer_hash := "a", cost := -1 } (initGenState 0)
    (by decide) rfl (by decide)

/-- C2: During `generate`'s sweep, once `feasible_region` is true it is
never reset to false by any later iteration (neither a continuing step nor
a breaking step); and after `feasible_region` is true, the first candidate
whose inclusion would push `next_total_gas` above `max_gas` or
`next_total_cost` above `max_cost` breaks the sweep without appending that
candidate's hash. -/
theorem feasible_region_monotone_and_ceiling_break
    (ct : List (Address × BpConversionTableEntry)) (mg : Nat) (mc : Int)
    (mode : AlgorithmMode) :
    (∀ (er : EligibleRecommendation) (s s2 : GenState),
      generateStep ct mg mc mode er s = .cont s2 →
      s.state.feasible_region = true → s2.state.feasible_region = true)
    ∧ (∀ (er : EligibleRecommendation) (s s2 : GenState),
      generateStep ct mg mc mode er s = .brk s2 →
      s2.state.feasible_region = s.state.feasible_region)
    ∧ (∀ (contents : List EligibleRecommendation) (s : GenState),
      s.state.feasible_region = true →
      (generateLoop ct mg mc mode contents s).state.feasible_region = true)
    ∧ (∀ (er : EligibleRecommendation) (rest : List EligibleRecommendation) (s : GenState),
      s.state.feasible_region = true →
      (mg < s.total_gas + unsigned_transfer_fee ∨ mc < s.total_cost + er.cost) →
      ∃ s2, generateStep ct mg mc mode er s = .brk s2
        ∧ s2.recommendation = s.recommendation
        ∧ generateLoop ct mg mc mode (er :: rest) s = s2) := by
  refine ⟨fun er s s2 h hf => generateStep_cont_feasible h hf,
    fun er s s2 h => (generateStep_brk_state h).2.1,
    generateLoop_feasible_mono ct mg mc mode, ?_⟩
  intro er rest s hf hviol
  have hnfit : ¬(s.total_gas + unsigned_transfer_fee ≤ mg ∧ s.total_cost + er.cost ≤ mc) := by
    rcases hviol with h | h
    · exact fun hfit => absurd hfit.1 (not_le.mpr h)
    · exact fun hfit => absurd hfit.2 (not_le.mpr h)
  have hbrk : ∃ s2, generateStep ct mg mc mode er s = .brk s2
      ∧ s2.recommendation = s.recommendation := by
    simp only [generateStep]
    split_ifs with h1 h2 h3
    · exact ⟨s, rfl, rfl⟩
    · exact ⟨_, rfl, rfl⟩
    · exact absurd ⟨hf, hnfit⟩ h3
    · exact ⟨s, rfl, rfl⟩
  obtain ⟨s2, hstep, hrec⟩ := hbrk
  exact ⟨s2, hstep, hrec, by simp only [generateLoop, hstep]⟩

/-- Closed instance of C2: with `feasible_region` already true and a
candidate that would breach the gas ceiling, the sweep breaks without
appending. -/
theorem feasible_region_monotone_and_ceiling_break_witness :
    ∃ s2, generateStep [] 0 0 AlgorithmMode.Greedy
        { pending_transfer := { transfer := 0, gas_fee := { token := 0, amount := 0, payer := 0 } },
          transfer_hash := "a", cost := -1 }
        { initGenState 0 with state := { profitable := true, feasible_region := true } } = .brk s2
      ∧ s2.recommendation =
          ({ initGenState 0 with
             state := { profitable := true, feasible_region := true } } : GenState).recommendation
      ∧ generateLoop [] 0 0 AlgorithmMode.Greedy
          [{ pending_transfer := { transfer := 0, gas_fee := { token := 0, amount := 0, payer := 0 } },
             transfer_hash := "a", cost := -1 }]
          { initGenState 0 with state := { profitable := true, feasible_region := true } } = s2 :=
  (feasible_region_monotone_and_ceiling_break [] 0 0 AlgorithmMode.Greedy).2.2.2
    { pending_transfer := { transfer := 0, gas_fee := { token := 0, amount := 0, payer := 0 } },
      transfer_hash := "a", cost := -1 } []
    { initGenState 0 with state := { profitable := true, feasible_region := true } }
    rfl (by decide)

/-- C6: `generate` selects `Greedy` mode exactly when `max_cost ≤ 0`
(else `Generous`); and in `Greedy` mode the first candidate encountered
with `cost ≥ 0` immediately breaks the sweep, without appending that
candidate's hash and leaving the state untouched. -/
theorem mode_select_and_greedy_break
    (ct : List (Address × BpConversionTableEntry)) (mg : Nat) (mc : Int) :
    (modeOf mc = AlgorithmMode.Greedy ↔ mc ≤ 0)
    ∧ (∀ (er : EligibleRecommendation) (rest : List EligibleRecommendation) (s : GenState),
        0 ≤ er.cost →
        generateStep ct mg mc AlgorithmMode.Greedy er s = .brk s
        ∧ generateLoop ct mg mc AlgorithmMode.Greedy (er :: rest) s = s) := by
  constructor
  · unfold modeOf
    split_ifs with h
    · simp [h]
    · simp [h]
  · intro er rest s hc
    have hstep : generateStep ct mg mc AlgorithmMode.Greedy er s = .brk s := by
      simp only [generateStep]
      rw [if_neg (not_lt.mpr hc), if_neg (by decide)]
    exact ⟨hstep, by simp only [generateLoop, hstep]⟩

/-- Closed instance of C6: in `Greedy` mode a candidate with `cost = 1 ≥ 0`
breaks the sweep at once. -/
theorem mode_select_and_greedy_break_witness :
    generateStep [] 0 0 AlgorithmMode.Greedy
      { pending_transfer := { transfer := 0, gas_fee := { token := 0, amount := 0, payer := 0 } },
        transfer_hash := "a", cost := 1 } (initGenState 0) = .brk (initGenState 0)
    ∧ generateLoop [] 0 0 AlgorithmMode.Greedy
      [{ pending_transfer := { transfer := 0, gas_fee := { token := 0, amount := 0, payer := 0 } },
         transfer_hash := "a", cost := 1 }] (initGenState 0) = initGenState 0 :=
  (mode_select_and_greedy_break [] 0 0).2
    { pending_transfer := { transfer := 0, gas_fee := { token := 0, amount := 0, payer := 0 } },
      transfer_hash := "a", cost := 1 } [] (initGenState 0) (by decide)

/-- C8: when the transfer hashes of the eligible candidates are pairwise
distinct (as they are when the candidates come from the hash-keyed signed
bridge pool map), each hash appears at most once in the batch returned by
`generate`. -/
theorem recommendation_nodup
    (contents : List EligibleRecommendation) (ct : List (Address × BpConversionTableEntry))
    (vg mg : Nat) (mc : Int) (r : List String)
    (hnd : (contents.map (fun er => er.transfer_hash)).Nodup)
    (hgen : generate contents ct vg mg mc = some (some r)) :
    r.Nodup := by
  by_cases hlt : vg < 2 ^ 255
  · rw [generate_eq_of_lt contents ct mg mc hlt] at hgen
    obtain ⟨t, ht, hsub⟩ := generateLoop_rec_sublist ct mg mc (modeOf mc) contents (initGenState vg)
    split_ifs at hgen with hcond
    · obtain rfl : (generateLoop ct mg mc (modeOf mc) contents (initGenState vg)).recommendation = r := by
        simpa using hgen
      rw [ht]
      simp only [initGenState, List.nil_append]
      exact List.Nodup.sublist hsub hnd
    · simp at hgen
  · rw [generate_none_of_ge contents ct mg mc hlt] at hgen; cases hgen

/-- Closed instance of C8: a single profitable candidate yields the batch
`["a"]`, which has no duplicates. -/
theorem recommendation_nodup_witness :
    (["a"] : List String).Nodup :=
  recommendation_nodup
    [{ pending_transfer := { transfer := 0, gas_fee := { token := 0, amount := 0, payer := 0 } },
       transfer_hash := "a", cost := -1 }] [] 0 100000 0 ["a"]
    (by decide) (by decide)

/-- C10: calling `generate` with an empty candidate list never halts when
`validator_gas` converts to `I256`: the sweep performs no iterations, so
`feasible_region` stays false and the recommendation stays empty, and the
function returns `Some None` (the no-recommendation outcome). -/
theorem generate_empty_no_recommendation
    (ct : List (Address × BpConversionTableEntry)) (vg mg : Nat) (mc : Int)
    (h : vg < 2 ^ 255) :
    generate [] ct vg mg mc = some none := by
  rw [generate_eq_of_lt [] ct mg mc h]
  simp [generateLoop, initGenState]

/-- Closed instance of C10. -/
theorem generate_empty_no_recommendation_witness :
    generate [] [] 5 7 (-2) = some none :=
  generate_empty_no_recommendation [] 5 7 (-2) (by decide)

/-! ## Claim theorems: relay driver and proof constructor -/

/-- C4: in `relay_bridge_pool_proof`, the Ethereum transaction is sent iff
the decoded proof's `batch_nonce` equals the bridge contract's
`transfer_to_erc_20_nonce`; a strictly smaller proof nonce halts with the
stale-proof diagnostic and a strictly greater one halts with the
nonce-ahead diagnostic, never reaching the submission step. -/
theorem relay_nonce_gate_correct (batch_nonce contract_nonce : Nat) :
    (relayNonceCheck batch_nonce contract_nonce = .submitted ↔ batch_nonce = contract_nonce)
    ∧ (batch_nonce < contract_nonce →
        relayNonceCheck batch_nonce contract_nonce = .haltStaleProof)
    ∧ (contract_nonce < batch_nonce →
        relayNonceCheck batch_nonce contract_nonce = .haltNonceAhead) := by
  refine ⟨⟨fun hs => ?_, fun he => ?_⟩, fun hlt => ?_, fun hgt => ?_⟩
  · by_contra hne
    rcases Ne.lt_or_lt hne with h | h
    · simp [relayNonceCheck, compare_lt_iff_lt.mpr h] at hs
    · simp [relayNonceCheck, compare_gt_iff_gt.mpr h] at hs
  · simp [relayNonceCheck, compare_eq_iff_eq.mpr he]
  · simp [relayNonceCheck, compare_lt_iff_lt.mpr hlt]
  · simp [relayNonceCheck, compare_gt_iff_gt.mpr hgt]

/-- Closed instances of C4 at nonces 3 = 3, 2 < 3 and 4 > 3. -/
theorem relay_nonce_gate_correct_witness :
    relayNonceCheck 3 3 = .submitted
    ∧ relayNonceCheck 2 3 = .haltStaleProof
    ∧ relayNonceCheck 4 3 = .haltNonceAhead :=
  ⟨(relay_nonce_gate_correct 3 3).1.mpr rfl,
   (relay_nonce_gate_correct 2 3).2.1 (by decide),
   (relay_nonce_gate_correct 4 3).2.2 (by decide)⟩

/-- C9: in the prompt loop, a trimmed input of `"y"` proceeds, a trimmed
`"n"` halts the run cleanly, any other line prints the re-prompt message
and loops on the remaining input, and a stdin read error halts the run. -/
theorem prompt_loop_behavior (line : String) (rest : List (Option String)) :
    (strTrim line = "y" → promptLoop (some line :: rest) = some (.proceed, []))
    ∧ (strTrim line = "n" → promptLoop (some line :: rest) = some (.haltClean, []))
    ∧ (strTrim line ≠ "y" → strTrim line ≠ "n" →
        promptLoop (some line :: rest) =
          (promptLoop rest).map (fun r => (r.1, rePromptMsg :: r.2)))
    ∧ promptLoop (none :: rest) = some (.haltError, []) := by
  refine ⟨fun h => ?_, fun h => ?_, fun h1 h2 => ?_, ?_⟩
  · simp [promptLoop, h]
  · simp [promptLoop, h]
  · simp [promptLoop, h1, h2]
  · simp [promptLoop]

/-- Closed instances of C9: `" y "` proceeds, `"n"` halts cleanly, and
`"maybe"` re-prompts before a final `"n"`. -/
theorem prompt_loop_behavior_witness :
    promptLoop [some (" y ")] = some (.proceed, [])
    ∧ promptLoop [some ("n")] = some (.haltClean, [])
    ∧ promptLoop [some ("maybe"), some ("n")] =
        (promptLoop [some ("n")]).map (fun r => (r.1, rePromptMsg :: r.2)) :=
  ⟨(prompt_loop_behavior (" y ") []).1 (by decide),
   (prompt_loop_behavior ("n") []).2.1 (by decide),
   (prompt_loop_behavior ("maybe") [some ("n")]).2.2.1 (by decide) (by decide)⟩

/-! ## Claim theorems: the eligibility filter -/

lemma collectElig_halt_of_mem {l : List (String × Option Int × PendingTransfer)}
    {hash : String} {t : PendingTransfer}
    (hmem : (hash, none, t) ∈ l) : collectElig l = none := by
  induction l with
  | nil => cases hmem
  | cons hd tl ih =>
    rcases List.mem_cons.mp hmem with heq | hmem2
    · rw [← heq]; simp [collectElig]
    · obtain ⟨h1, c1, t1⟩ := hd
      cases c1 <;> simp [collectElig, ih hmem2]

lemma gweiPerGasToken_one : gweiPerGasToken 1 = 1000000000 := by
  unfold gweiPerGasToken
  norm_num
  rfl

/-- C5: in the eligibility filter of `recommend_batch`, if for any single
candidate the conversion of the unsigned product
`gas_fee.amount × gwei_per_gas_token` to `I256` fails (the value exceeds
the signed 256-bit range), the whole run halts and no candidate list is
produced at all — the failing candidate is not merely skipped. -/
theorem elig_overflow_halts_run
    (in_progress : List PendingTransfer) (table : List (Address × BpConversionTableEntry))
    (pool : List (String × PendingTransfer)) (hash : String) (pending : PendingTransfer)
    (entry : BpConversionTableEntry)
    (hmem : (hash, pending) ∈ pool)
    (hnip : pending ∉ in_progress)
    (hlook : List.lookup pending.gas_fee.token table = some entry)
    (hrate : 0 < entry.conversion_rate)
    (hover : 2 ^ 255 ≤ pending.gas_fee.amount * gweiPerGasToken entry.conversion_rate) :
    eligibilityFilter in_progress table pool = none := by
  have htf : I256.tryFrom (pending.gas_fee.amount * gweiPerGasToken entry.conversion_rate)
      = none := by
    unfold I256.tryFrom
    rw [if_neg (not_lt.mpr hover)]
  have hitem : eligItem in_progress table (hash, pending) = some (hash, none, pending) := by
    simp only [eligItem]
    rw [if_neg hnip, hlook]
    dsimp only
    rw [if_neg (not_le.mpr hrate), htf]
    rfl
  exact collectElig_halt_of_mem
    (List.mem_filterMap.mpr ⟨(hash, pending), hmem, hitem⟩)

/-- Closed instance of C5: a fee amount of `2^255` with conversion rate 1
overflows `I256` and halts the whole filter. -/
theorem elig_overflow_halts_run_witness :
    eligibilityFilter []
      [(7, { tokAlias := "NAM", conversion_rate := 1 })]
      [("h", { transfer := 0, gas_fee := { token := 7, amount := 2 ^ 255, payer := 0 } })]
      = none :=
  elig_overflow_halts_run []
    [(7, { tokAlias := "NAM", conversion_rate := 1 })]
    [("h", { transfer := 0, gas_fee := { token := 7, amount := 2 ^ 255, payer := 0 } })]
    "h" { transfer := 0, gas_fee := { token := 7, amount := 2 ^ 255, payer := 0 } }
    { tokAlias := "NAM", conversion_rate := 1 }
    (by simp) (by simp) rfl (by norm_num)
    (by rw [gweiPerGasToken_one]; decide)

/-- C7: a transfer passing the eligibility filter (not in progress,
conversion-table entry present, positive rate, no `I256` overflow) has its
recorded cost equal to `UNSIGNED_TRANSFER_FEE (37500)` minus
`gas_fee.amount × gwei_per_gas_token`, exactly — the 256-bit signed
subtraction does not wrap on these values. -/
theorem elig_cost_formula
    (in_progress : List PendingTransfer) (table : List (Address × BpConversionTableEntry))
    (hash : String) (pending : PendingTransfer) (entry : BpConversionTableEntry)
    (hnip : pending ∉ in_progress)
    (hlook : List.lookup pending.gas_fee.token table = some entry)
    (hrate : 0 < entry.conversion_rate)
    (hok : pending.gas_fee.amount * gweiPerGasToken entry.conversion_rate < 2 ^ 255) :
    eligItem in_progress table (hash, pending) =
      some (hash,
        some ((37500 : Int) -
          (pending.gas_fee.amount * gweiPerGasToken entry.conversion_rate : Nat)),
        pending) := by
  have htf : I256.tryFrom (pending.gas_fee.amount * gweiPerGasToken entry.conversion_rate)
      = some ((pending.gas_fee.amount * gweiPerGasToken entry.conversion_rate : Nat) : Int) := by
    unfold I256.tryFrom
    rw [if_pos hok]
  have hc0 : (0 : Int) ≤ ((pending.gas_fee.amount * gweiPerGasToken entry.conversion_rate : Nat) : Int) :=
    Int.natCast_nonneg _
  have hclt : ((pending.gas_fee.amount * gweiPerGasToken entry.conversion_rate : Nat) : Int) < 2 ^ 255 := by
    exact_mod_cast hok
  have hsub : I256.sub transfer_fee
      ((pending.gas_fee.amount * gweiPerGasToken entry.conversion_rate : Nat) : Int) =
      (37500 : Int) - (pending.gas_fee.amount * gweiPerGasToken entry.conversion_rate : Nat) := by
    unfold I256.sub transfer_fee
    apply wrap256_eq_self
    · have h37 : (37500 : Int) - 2 ^ 255 ≥ -(2 ^ 255) := by norm_num
      linarith
    · have h37 : (37500 : Int) < 2 ^ 255 := by norm_num
      linarith
  simp only [eligItem]
  rw [if_neg hnip, hlook]
  dsimp only
  rw [if_neg (not_le.mpr hrate), htf]
  simp only [Option.map_some']
  rw [hsub]

/-- Closed instance of C7: a fee amount of 1 at conversion rate 1 gives
cost `37500 − 10^9`. -/
theorem elig_cost_formula_witness :
    eligItem []
      [(7, { tokAlias := "NAM", conversion_rate := 1 })]
      ("h", { transfer := 0, gas_fee := { token := 7, amount := 1, payer := 0 } }) =
      some ("h",
        some ((37500 : Int) - (1 * gweiPerGasToken 1 : Nat)),
        { transfer := 0, gas_fee := { token := 7, amount := 1, payer := 0 } }) :=
  elig_cost_formula []
    [(7, { tokAlias := "NAM", conversion_rate := 1 })]
    "h" { transfer := 0, gas_fee := { token := 7, amount := 1, payer := 0 } }
    { tokAlias := "NAM", conversion_rate := 1 }
    (by simp) rfl (by norm_num)
    (by rw [one_mul, gweiPerGasToken_one]; decide)

/-! ## Claim theorems: the signature-quorum estimator -/

lemma sigChecksGo_eq_quorumCount (sigs : List EthAddrBook) (total : Nat) :
    ∀ (l : List (EthAddrBook × Nat)) (acc : Rat),
      sigChecksGo sigs total l acc =
        quorumCount ((l.filter (fun e => decide (e.1 ∈ sigs))).map
          (fun e => (e.2 : Rat) / (total : Rat))) acc := by
  intro l
  induction l with
  | nil => intro acc; simp [sigChecksGo, quorumCount]
  | cons hd tl ih =>
    intro acc
    obtain ⟨a, p⟩ := hd
    by_cases hmem : a ∈ sigs
    · rw [List.filter_cons_of_pos (by simpa using hmem), List.map_cons]
      simp only [sigChecksGo, quorumCount, if_pos hmem]
      by_cases hacc : acc ≤ 2 / 3
      · rw [if_pos hacc, if_pos hacc, ih]
      · rw [if_neg hacc, if_neg hacc]
    · rw [List.filter_cons_of_neg (by simpa using hmem)]
      simp only [sigChecksGo, if_neg hmem]
      exact ih acc

lemma quorumCount_eq_takeWhile :
    ∀ (ps : List Rat) (acc : Rat),
      quorumCount ps acc =
        (((ps.scanl (· + ·) acc).dropLast).takeWhile (fun q => decide (q ≤ 2 / 3))).length := by
  intro ps
  induction ps with
  | nil => intro acc; simp [quorumCount]
  | cons s rest ih =>
    intro acc
    have hne : rest.scanl (· + ·) (acc + s) ≠ [] := by
      cases rest <;> simp
    rw [List.scanl_cons, List.singleton_append, List.dropLast_cons_of_ne_nil hne]
    simp only [quorumCount]
    by_cases hacc : acc ≤ 2 / 3
    · rw [if_pos hacc, List.takeWhile_cons_of_pos (by simpa using hacc)]
      rw [List.length_cons, ih]
    · rw [if_neg hacc, List.takeWhile_cons_of_neg (by simpa using hacc)]
      simp

lemma signature_checks_eq_spec (vp : List (EthAddrBook × Nat)) (sigs : List EthAddrBook) :
    signature_checks vp sigs = signature_checks_spec vp sigs := by
  simp only [signature_checks, signature_checks_spec]
  rw [sigChecksGo_eq_quorumCount, quorumCount_eq_takeWhile]

lemma signature_checks_empty_sigs (vp : List (EthAddrBook × Nat)) :
    signature_checks vp [] = 0 := by
  simp only [signature_checks]
  rw [sigChecksGo_eq_quorumCount]
  simp [quorumCount]

lemma filter_key_singleton_of_nodup (a : EthAddrBook) (p : Nat) :
    ∀ (l : List (EthAddrBook × Nat)),
      (l.map Prod.fst).Nodup → (a, p) ∈ l →
      l.filter (fun e => decide (e.1 ∈ [a])) = [(a, p)] := by
  intro l
  induction l with
  | nil => intro _ hmem; cases hmem
  | cons hd tl ih =>
    intro hnd hmem
    simp only [List.map_cons, List.nodup_cons] at hnd
    obtain ⟨hnotin, hndtl⟩ := hnd
    rcases List.mem_cons.mp hmem with heq | hmem2
    · rw [← heq] at hnotin ⊢
      rw [List.filter_cons_of_pos (by simp)]
      have hnil : tl.filter (fun e => decide (e.1 ∈ [a])) = [] := by
        apply List.filter_eq_nil_iff.mpr
        intro e he
        simp only [List.mem_singleton, decide_eq_true_eq]
        intro hea
        have hin : e.1 ∈ tl.map Prod.fst := List.mem_map_of_mem Prod.fst he
        rw [hea] at hin
        exact hnotin hin
      rw [hnil]
    · have hda : ¬(hd.1 = a) := by
        intro h
        have hin : a ∈ tl.map Prod.fst := List.mem_map_of_mem Prod.fst hmem2
        rw [← h] at hin
        exact hnotin hin
      rw [List.filter_cons_of_neg (by simpa using hda)]
      exact ih hndtl hmem2

lemma signature_checks_lone_signer (vp : List (EthAddrBook × Nat))
    (a : EthAddrBook) (p : Nat)
    (hnd : (vp.map Prod.fst).Nodup) (hmem : (a, p) ∈ vp) :
    signature_checks vp [a] = 1 := by
  simp only [signature_checks]
  rw [sigChecksGo_eq_quorumCount, filter_key_singleton_of_nodup a p vp hnd hmem]
  simp only [List.map_cons, List.map_nil, quorumCount]
  rw [if_pos (by norm_num)]

/-- C3: `signature_checks` equals the count described by the spec — walk
the voting powers in decreasing-power order, skip non-signers (neither
counted nor advancing the accumulator), count each signer reached while
the accumulated fractional power of previously counted signers is `≤ 2/3`,
and stop once it exceeds `2/3`; in particular an empty signer set yields 0
and a lone signer holding `≥ 2/3` of the total power yields 1, all
fractional arithmetic being exact. -/
theorem signature_checks_correct (vp : List (EthAddrBook × Nat)) (sigs : List EthAddrBook) :
    signature_checks vp sigs = signature_checks_spec vp sigs
    ∧ signature_checks vp [] = 0
    ∧ (∀ (a : EthAddrBook) (p : Nat),
        (vp.map Prod.fst).Nodup → (a, p) ∈ vp →
        2 * (vp.map Prod.snd).sum ≤ 3 * p →
        signature_checks vp [a] = 1) :=
  ⟨signature_checks_eq_spec vp sigs,
   signature_checks_empty_sigs vp,
   fun a p hnd hmem _ => signature_checks_lone_signer vp a p hnd hmem⟩

/-- Closed instance of C3: with powers `{1 ↦ 5, 2 ↦ 1, 3 ↦ 1}` (sorted)
and the lone signer `1` holding `5/7 ≥ 2/3` of the power, the estimator
returns 1. -/
theorem signature_checks_correct_witness :
    signature_checks [(1, 5), (2, 1), (3, 1)] [1] = 1 :=
  (signature_checks_correct [(1, 5), (2, 1), (3, 1)] [1]).2.2 1 5
    (by decide) (by decide) (by decide)
